import Mathlib

/-!
Verification of the Place-A-Bet settlement core.

The numeric model uses exact rationals: the sources compute over JavaScript
numbers, and the wager amounts the system accepts are whole-unit positive
integers, so every intermediate value here is an exact rational.
Rounding to two decimals, written round2, models the source expression
Math.round(x * 100) / 100 (half rounds toward positive infinity).

Grouping by user follows the JavaScript Map semantics: first-occurrence
insertion order, updating in place. Sorting models the stable JavaScript
Array.sort with comparator (a, b) => b.netWinLoss - a.netWinLoss, embedded
as a stable insertion sort in descending key order.
-/

namespace PlaceABet

/-- A single wager, from payout-calculator.ts (interface UserWager). -/
structure UserWager where
  userName : String
  optionId : ℤ
  amount : ℚ
deriving DecidableEq

/-- One row of the calculator output, from payout-calculator.ts
(interface PayoutResult). -/
structure PayoutResult where
  userName : String
  totalWagered : ℚ
  payout : ℚ
  netWinLoss : ℚ
deriving DecidableEq

/-- Math.round(x * 100) / 100 over exact rationals: half away from
negative infinity. -/
def round2 (x : ℚ) : ℚ := (⌊x * 100 + 1/2⌋ : ℤ) / 100

/-- Update an association list in place, JavaScript Map style: add v to the
value at key k, or append (k, v) when the key is absent. -/
def bumpAdd {β : Type} [Add β] (k : String) (v : β) :
    List (String × β) → List (String × β)
  | [] => [(k, v)]
  | e :: rest =>
    if e.1 = k then (e.1, e.2 + v) :: rest else e :: bumpAdd k v rest

/-- Group a list by a string key, accumulating values with +, in
first-occurrence insertion order (the JavaScript Map/object iteration
order used by both groupings in calculatePayouts and by the
settlement-summary reduce). -/
def groupBy {α β : Type} [Add β] (key : α → String) (val : α → β)
    (ws : List α) : List (String × β) :=
  ws.foldl (fun acc w => bumpAdd (key w) (val w) acc) []

/-- Insert r into a list already sorted in descending key order, after
every element with a strictly larger key and before the rest. Later
insertions of equal keys land after earlier ones, matching a stable sort. -/
def insertByKey {α : Type} (key : α → ℚ) (r : α) : List α → List α
  | [] => [r]
  | x :: xs => if key r < key x then x :: insertByKey key r xs
               else r :: x :: xs

/-- Stable sort in descending key order: the semantics of the source
results.sort((a, b) => b.netWinLoss - a.netWinLoss). -/
def sortByKeyDesc {α : Type} (key : α → ℚ) (l : List α) : List α :=
  l.foldr (insertByKey key) []

/-- totalPool of calculatePayouts: sum of all wager amounts. -/
def totalPoolOf (wagers : List UserWager) : ℚ :=
  (wagers.map (·.amount)).sum

/-- winningPool of calculatePayouts: sum of the amounts wagered on the
winning option. -/
def winningPoolOf (wagers : List UserWager) (winningOptionId : ℤ) : ℚ :=
  ((wagers.filter (fun w => w.optionId = winningOptionId)).map
    (·.amount)).sum

/-- The grouping of the winningPool == 0 branch: total wagered per user,
in first-appearance order. -/
def groupLoss (wagers : List UserWager) : List (String × ℚ) :=
  groupBy (·.userName) (·.amount) wagers

/-- The grouping of the normal branch: per user, the pair of the total
wagered and the part wagered on the winning option, in first-appearance
order. -/
def groupWin (winningOptionId : ℤ) (wagers : List UserWager) :
    List (String × ℚ × ℚ) :=
  groupBy (·.userName)
    (fun w => (w.amount,
      if w.optionId = winningOptionId then w.amount else 0))
    wagers

/-- calculatePayouts from payout-calculator.ts: proportional pari-mutuel
distribution with a special case when nobody wagered on the winning
option. -/
def calculatePayouts (wagers : List UserWager) (winningOptionId : ℤ) :
    List PayoutResult :=
  if wagers.length = 0 then []
  else
    let totalPool := totalPoolOf wagers
    let winningPool := winningPoolOf wagers winningOptionId
    if winningPool = 0 then
      sortByKeyDesc (·.netWinLoss)
        ((groupLoss wagers).map
          (fun e => ⟨e.1, e.2, 0, -e.2⟩))
    else
      sortByKeyDesc (·.netWinLoss)
        ((groupWin winningOptionId wagers).map
          (fun e =>
            let payout := (e.2.2 / winningPool) * totalPool
            ⟨e.1, e.2.1, round2 payout, round2 (payout - e.2.1)⟩))

/-! ## Bet lifecycle (routes/bets.ts, close and settle handlers) -/

/-- Status values of the bets table. The first constructor carries an
underscore because open is a keyword. -/
inductive BetStatus
  | open_
  | closed
  | settled
deriving DecidableEq

/-- The slice of a bets row that the close and settle handlers read and
write, together with the ids of the betOptions rows of the bet. -/
structure BetRec where
  status : BetStatus
  createdBy : String
  options : List ℤ
  winningOptionId : Option ℤ
deriving DecidableEq

/-- Caller identity fields of a close request body (closeBetSchema plus
the raw createdBy field the handler reads). -/
structure AuthReq where
  hostPin : Option String
  createdBy : Option String
deriving DecidableEq

/-- Body of a settle request after settleBetSchema validation, plus the
raw createdBy field the handler reads. -/
structure SettleReq where
  winningOptionId : ℤ
  hostPin : Option String
  createdBy : Option String
deriving DecidableEq

/-- The error outcomes of the two handlers that matter to the claims:
400 state errors with their message, the 403 authorization error, and
the 400 invalid-winning-option error. -/
inductive ApiError
  | stateError (msg : String)
  | authError
  | invalidOption
deriving DecidableEq

/-- The source test hostPin and hostPin === expectedPin: a missing or
empty pin is falsy, otherwise the pin must equal the configured
HOST_PIN environment value. -/
def isHost (pin : Option String) (envPin : Option String) : Bool :=
  match pin with
  | none => false
  | some p => p ≠ "" && envPin = some p

/-- The source test req.body.createdBy === bet.createdBy. -/
def isCreator (claim : Option String) (stored : String) : Bool :=
  claim = some stored

/-- POST /api/bets/:id/close from the status check on: reject unless the
status is open, then reject unless the caller is host or creator, then
move the bet to closed. -/
def closeBet (bet : BetRec) (req : AuthReq) (envPin : Option String) :
    Except ApiError BetRec :=
  if bet.status ≠ BetStatus.open_ then
    Except.error (ApiError.stateError "Cannot close bet")
  else if isHost req.hostPin envPin || isCreator req.createdBy bet.createdBy
  then Except.ok { bet with status := BetStatus.closed }
  else Except.error ApiError.authError

/-- POST /api/bets/:id/settle from the status checks on: reject a settled
bet, reject an open bet, reject a winning option id that is not one of
the options of this bet, reject a caller that is neither host nor
creator, then move the bet to settled recording the winning option. -/
def settleBet (bet : BetRec) (req : SettleReq) (envPin : Option String) :
    Except ApiError BetRec :=
  if bet.status = BetStatus.settled then
    Except.error (ApiError.stateError "Bet is already settled")
  else if bet.status = BetStatus.open_ then
    Except.error (ApiError.stateError "Bet must be closed before settling")
  else if req.winningOptionId ∈ bet.options then
    if isHost req.hostPin envPin || isCreator req.createdBy bet.createdBy
    then Except.ok { bet with status := BetStatus.settled,
                              winningOptionId := some req.winningOptionId }
    else Except.error ApiError.authError
  else Except.error (ApiError.invalidOption)

/-- One close or settle attempt against a stored bet. -/
inductive BetAction
  | close (req : AuthReq)
  | settle (req : SettleReq)

/-- Effect of one handler call on the stored bet: a rejected request
leaves the row unchanged. -/
def applyAction (envPin : Option String) (bet : BetRec) :
    BetAction → BetRec
  | BetAction.close req =>
    match closeBet bet req envPin with
    | Except.ok b => b
    | Except.error _ => bet
  | BetAction.settle req =>
    match settleBet bet req envPin with
    | Except.ok b => b
    | Except.error _ => bet

/-- A sequence of close and settle attempts against one stored bet. -/
def runActions (envPin : Option String) (bet : BetRec)
    (acts : List BetAction) : BetRec :=
  acts.foldl (applyAction envPin) bet

/-- Position of a status along the lifecycle open, closed, settled. -/
def statusRank : BetStatus → ℕ
  | BetStatus.open_ => 0
  | BetStatus.closed => 1
  | BetStatus.settled => 2

/-! ## Settlement aggregator (GET /api/parties/:id/settlement-summary) -/

/-- The slice of a settlements row the summary reads. -/
structure SettlementRec where
  betId : ℤ
  userName : String
  netWinLoss : ℚ
deriving DecidableEq

/-- The slice of a wagers row the summary reads. -/
structure WagerRec where
  betId : ℤ
  amount : ℚ
deriving DecidableEq

/-- One entry of the users list in the summary response. -/
structure SummaryEntry where
  userName : String
  netAmount : ℚ
deriving DecidableEq

/-- GET /api/parties/:id/settlement-summary: when the party has no bets
answer immediately with no users and a zero pot; otherwise scope the
settlements and wagers to the bets of the party, sum the pot over the
scoped wagers, group netWinLoss by user in first-appearance order, and
sort the entries winners first. -/
def settlementSummary (betIds : List ℤ)
    (allSettlements : List SettlementRec) (allWagers : List WagerRec) :
    List SummaryEntry × ℚ :=
  if betIds.length = 0 then ([], 0)
  else
    let inScope := allSettlements.filter (fun s => s.betId ∈ betIds)
    let totalPot :=
      ((allWagers.filter (fun w => w.betId ∈ betIds)).map (·.amount)).sum
    let totals := groupBy (·.userName) (·.netWinLoss) inScope
    (sortByKeyDesc (·.netAmount) (totals.map (fun e => ⟨e.1, e.2⟩)),
     totalPot)

/-! ## Association-list grouping lemmas -/

section GroupLemmas

variable {α β : Type} [AddCommMonoid β]

/-- Sum of the values stored under key n. -/
def valFor (n : String) (l : List (String × β)) : β :=
  ((l.filter (fun e => e.1 = n)).map Prod.snd).sum

lemma bumpAdd_cons_eq {e : String × β} {k : String} (v : β)
    (rest : List (String × β)) (h : e.1 = k) :
    bumpAdd k v (e :: rest) = (e.1, e.2 + v) :: rest := by
  simp [bumpAdd, h]

lemma bumpAdd_cons_ne {e : String × β} {k : String} (v : β)
    (rest : List (String × β)) (h : ¬ e.1 = k) :
    bumpAdd k v (e :: rest) = e :: bumpAdd k v rest := by
  simp [bumpAdd, h]

lemma valFor_cons (n : String) (e : String × β) (l : List (String × β)) :
    valFor n (e :: l) = (if e.1 = n then e.2 else 0) + valFor n l := by
  by_cases h : e.1 = n <;> simp [valFor, List.filter_cons, h]

lemma mem_keys_bumpAdd (n k : String) (v : β) (l : List (String × β)) :
    n ∈ (bumpAdd k v l).map Prod.fst ↔ n = k ∨ n ∈ l.map Prod.fst := by
  induction l with
  | nil => simp [bumpAdd, eq_comm]
  | cons e rest ih =>
    by_cases h : e.1 = k
    · rw [bumpAdd_cons_eq v rest h]
      subst h
      simp only [List.map_cons, List.mem_cons]
      tauto
    · rw [bumpAdd_cons_ne v rest h]
      simp only [List.map_cons, List.mem_cons, ih]
      tauto

lemma nodup_keys_bumpAdd (k : String) (v : β) {l : List (String × β)}
    (h : (l.map Prod.fst).Nodup) : ((bumpAdd k v l).map Prod.fst).Nodup := by
  induction l with
  | nil => simp [bumpAdd]
  | cons e rest ih =>
    rw [List.map_cons, List.nodup_cons] at h
    by_cases he : e.1 = k
    · rw [bumpAdd_cons_eq v rest he]
      rw [List.map_cons, List.nodup_cons]
      exact h
    · rw [bumpAdd_cons_ne v rest he]
      rw [List.map_cons, List.nodup_cons]
      refine ⟨fun hmem => ?_, ih h.2⟩
      rcases (mem_keys_bumpAdd e.1 k v rest).mp hmem with h2 | h2
      · exact he h2
      · exact h.1 h2

lemma valFor_bumpAdd (n k : String) (v : β) (l : List (String × β)) :
    valFor n (bumpAdd k v l) =
      valFor n l + (if n = k then v else 0) := by
  induction l with
  | nil =>
    by_cases h : n = k
    · subst h
      simp [bumpAdd, valFor, List.filter_cons]
    · have h2 : ¬ k = n := fun hh => h hh.symm
      simp [bumpAdd, valFor, List.filter_cons, h, h2]
  | cons e rest ih =>
    by_cases he : e.1 = k
    · rw [bumpAdd_cons_eq v rest he, valFor_cons, valFor_cons]
      by_cases hn : e.1 = n
      · have hnk : n = k := by rw [← hn, he]
        simp only [hn, if_pos rfl, if_pos hnk]
        abel
      · have hnk : ¬ n = k := fun hh => hn (by rw [he, ← hh])
        simp [hn, hnk]
    · rw [bumpAdd_cons_ne v rest he, valFor_cons, valFor_cons, ih]
      abel

lemma sum_vals_bumpAdd (k : String) (v : β) (l : List (String × β)) :
    ((bumpAdd k v l).map Prod.snd).sum = (l.map Prod.snd).sum + v := by
  induction l with
  | nil => simp [bumpAdd]
  | cons e rest ih =>
    by_cases he : e.1 = k
    · rw [bumpAdd_cons_eq v rest he]
      simp only [List.map_cons, List.sum_cons]
      abel
    · rw [bumpAdd_cons_ne v rest he]
      simp only [List.map_cons, List.sum_cons, ih]
      abel

lemma mem_keys_foldl (key : α → String) (val : α → β) (n : String)
    (ws : List α) :
    ∀ acc : List (String × β),
      (n ∈ ((ws.foldl (fun acc w => bumpAdd (key w) (val w) acc) acc).map
          Prod.fst)) ↔
        n ∈ acc.map Prod.fst ∨ n ∈ ws.map key := by
  induction ws with
  | nil => intro acc; simp
  | cons w ws ih =>
    intro acc
    rw [List.foldl_cons, ih, mem_keys_bumpAdd]
    simp only [List.map_cons, List.mem_cons]
    tauto

lemma nodup_keys_foldl (key : α → String) (val : α → β) (ws : List α) :
    ∀ acc : List (String × β), (acc.map Prod.fst).Nodup →
      (((ws.foldl (fun acc w => bumpAdd (key w) (val w) acc) acc).map
          Prod.fst)).Nodup := by
  induction ws with
  | nil => intro acc h; simpa using h
  | cons w ws ih =>
    intro acc h
    rw [List.foldl_cons]
    exact ih _ (nodup_keys_bumpAdd _ _ h)

lemma valFor_foldl (key : α → String) (val : α → β) (n : String)
    (ws : List α) :
    ∀ acc : List (String × β),
      valFor n (ws.foldl (fun acc w => bumpAdd (key w) (val w) acc) acc) =
        valFor n acc + ((ws.filter (fun w => key w = n)).map val).sum := by
  induction ws with
  | nil => intro acc; simp
  | cons w ws ih =>
    intro acc
    rw [List.foldl_cons, ih, valFor_bumpAdd]
    by_cases h : key w = n
    · have h2 : n = key w := h.symm
      rw [List.filter_cons_of_pos (by simpa using h)]
      simp only [List.map_cons, List.sum_cons, if_pos h2]
      abel
    · have h2 : ¬ n = key w := fun hh => h hh.symm
      rw [List.filter_cons_of_neg (by simpa using h)]
      simp [h2]

lemma sum_vals_foldl (key : α → String) (val : α → β) (ws : List α) :
    ∀ acc : List (String × β),
      (((ws.foldl (fun acc w => bumpAdd (key w) (val w) acc) acc).map
          Prod.snd)).sum =
        (acc.map Prod.snd).sum + (ws.map val).sum := by
  induction ws with
  | nil => intro acc; simp
  | cons w ws ih =>
    intro acc
    rw [List.foldl_cons, ih, sum_vals_bumpAdd]
    simp only [List.map_cons, List.sum_cons]
    abel

lemma mem_keys_groupBy (key : α → String) (val : α → β) (n : String)
    (ws : List α) :
    n ∈ (groupBy key val ws).map Prod.fst ↔ n ∈ ws.map key := by
  rw [groupBy, mem_keys_foldl]
  simp

lemma nodup_keys_groupBy (key : α → String) (val : α → β) (ws : List α) :
    ((groupBy key val ws).map Prod.fst).Nodup := by
  rw [groupBy]
  exact nodup_keys_foldl key val ws [] (by simp)

lemma valFor_groupBy (key : α → String) (val : α → β) (n : String)
    (ws : List α) :
    valFor n (groupBy key val ws) =
      ((ws.filter (fun w => key w = n)).map val).sum := by
  rw [groupBy, valFor_foldl]
  simp [valFor]

lemma sum_vals_groupBy (key : α → String) (val : α → β) (ws : List α) :
    ((groupBy key val ws).map Prod.snd).sum = (ws.map val).sum := by
  rw [groupBy, sum_vals_foldl]
  simp

omit [AddCommMonoid β] in
lemma filter_key_of_nodup {l : List (String × β)}
    (h : (l.map Prod.fst).Nodup) {e : String × β} (he : e ∈ l) :
    l.filter (fun x => x.1 = e.1) = [e] := by
  induction l with
  | nil => cases he
  | cons a rest ih =>
    rw [List.map_cons, List.nodup_cons] at h
    rcases List.mem_cons.mp he with rfl | hmem
    · have hrest : rest.filter (fun x => x.1 = e.1) = [] := by
        rw [List.filter_eq_nil_iff]
        intro b hb hbe
        simp only [decide_eq_true_eq] at hbe
        exact h.1 (hbe ▸ List.mem_map_of_mem Prod.fst hb)
      rw [List.filter_cons_of_pos (by simp), hrest]
    · have hne : ¬ a.1 = e.1 := by
        intro hh
        exact h.1 (hh ▸ List.mem_map_of_mem Prod.fst hmem)
      rw [List.filter_cons_of_neg (by simpa using hne)]
      exact ih h.2 hmem

/-- Every stored entry of a grouping holds exactly the sum of the values
of the inputs that share its key. -/
lemma val_of_mem_groupBy (key : α → String) (val : α → β)
    {ws : List α} {e : String × β} (he : e ∈ groupBy key val ws) :
    e.2 = ((ws.filter (fun w => key w = e.1)).map val).sum := by
  have h1 := valFor_groupBy key val e.1 ws
  rw [valFor, filter_key_of_nodup (nodup_keys_groupBy key val ws) he] at h1
  simpa using h1

end GroupLemmas

/-! ## Sorting lemmas -/

section SortLemmas

variable {α : Type} (key : α → ℚ)

lemma perm_insertByKey (r : α) (l : List α) :
    List.Perm (insertByKey key r l) (r :: l) := by
  induction l with
  | nil => exact List.Perm.refl _
  | cons x xs ih =>
    by_cases h : key r < key x
    · rw [insertByKey, if_pos h]
      exact (ih.cons x).trans (List.Perm.swap r x xs)
    · rw [insertByKey, if_neg h]

lemma perm_sortByKeyDesc (l : List α) : List.Perm (sortByKeyDesc key l) l := by
  induction l with
  | nil => exact List.Perm.refl _
  | cons x xs ih => exact (perm_insertByKey key x _).trans (ih.cons x)

lemma mem_insertByKey {y r : α} {l : List α}
    (h : y ∈ insertByKey key r l) : y = r ∨ y ∈ l :=
  List.mem_cons.mp ((perm_insertByKey key r l).mem_iff.mp h)

lemma pairwise_insertByKey (r : α) {l : List α}
    (h : l.Pairwise (fun a b => key b ≤ key a)) :
    (insertByKey key r l).Pairwise (fun a b => key b ≤ key a) := by
  induction l with
  | nil => simp [insertByKey]
  | cons x xs ih =>
    rcases List.pairwise_cons.mp h with ⟨hx, hxs⟩
    by_cases hlt : key r < key x
    · rw [insertByKey, if_pos hlt]
      refine List.pairwise_cons.mpr ⟨fun y hy => ?_, ih hxs⟩
      rcases mem_insertByKey key hy with rfl | hmem
      · exact le_of_lt hlt
      · exact hx y hmem
    · rw [insertByKey, if_neg hlt]
      refine List.pairwise_cons.mpr ⟨fun y hy => ?_, h⟩
      rcases List.mem_cons.mp hy with rfl | hmem
      · exact not_lt.mp hlt
      · exact le_trans (hx y hmem) (not_lt.mp hlt)

lemma pairwise_sortByKeyDesc (l : List α) :
    (sortByKeyDesc key l).Pairwise (fun a b => key b ≤ key a) := by
  induction l with
  | nil => simp [sortByKeyDesc]
  | cons x xs ih => exact pairwise_insertByKey key x ih

end SortLemmas

/-! ## Rounding lemmas -/

lemma round2_sub_int (x : ℚ) (k : ℤ) : round2 (x - k) = round2 x - k := by
  rw [round2, round2]
  have h : (x - k) * 100 + 1/2 = (x * 100 + 1/2) + (-(100 * k) : ℤ) := by
    push_cast
    ring
  rw [h, Int.floor_add_int]
  push_cast
  ring

lemma round2_intCast (k : ℤ) : round2 (k : ℚ) = k := by
  rw [round2]
  have h : (k : ℚ) * 100 + 1/2 = ((100 * k : ℤ) : ℚ) + 1/2 := by
    push_cast
    ring
  rw [h, Int.floor_int_add]
  have h2 : ⌊(1/2 : ℚ)⌋ = 0 := by norm_num
  rw [h2]
  push_cast
  ring

lemma abs_round2_sub_le (x : ℚ) : |round2 x - x| ≤ 1/200 := by
  have h1 : ((⌊x * 100 + 1/2⌋ : ℤ) : ℚ) ≤ x * 100 + 1/2 := Int.floor_le _
  have h2 : x * 100 + 1/2 - 1 < ((⌊x * 100 + 1/2⌋ : ℤ) : ℚ) :=
    Int.sub_one_lt_floor _
  rw [round2, abs_le]
  constructor
  · linarith
  · linarith

lemma abs_sum_round2_sub_le (l : List ℚ) :
    |(l.map round2).sum - l.sum| ≤ (l.length : ℚ) * (1/200) := by
  induction l with
  | nil => simp
  | cons a xs ih =>
    simp only [List.map_cons, List.sum_cons, List.length_cons]
    have h1 := abs_round2_sub_le a
    have h3 : round2 a + (xs.map round2).sum - (a + xs.sum) =
        (round2 a - a) + ((xs.map round2).sum - xs.sum) := by ring
    rw [h3]
    calc |(round2 a - a) + ((xs.map round2).sum - xs.sum)|
        ≤ |round2 a - a| + |(xs.map round2).sum - xs.sum| := abs_add _ _
      _ ≤ 1/200 + (xs.length : ℚ) * (1/200) := add_le_add h1 ih
      _ = ((xs.length + 1 : ℕ) : ℚ) * (1/200) := by push_cast; ring

/-- A rational that is an integer is fixed by round2. -/
lemma round2_of_int {x : ℚ} (h : ∃ k : ℤ, x = (k : ℚ)) : round2 x = x := by
  rcases h with ⟨k, rfl⟩
  exact round2_intCast k

lemma round2_zero : round2 0 = 0 := by
  have h := round2_intCast 0
  simpa using h

/-- A sum of integer rationals is an integer rational. -/
lemma sum_int_of_int {l : List ℚ} (h : ∀ x ∈ l, ∃ k : ℤ, x = (k : ℚ)) :
    ∃ k : ℤ, l.sum = (k : ℚ) := by
  induction l with
  | nil => exact ⟨0, by simp⟩
  | cons a xs ih =>
    rcases h a (List.mem_cons_self a xs) with ⟨ka, hka⟩
    rcases ih (fun x hx => h x (List.mem_cons_of_mem a hx)) with ⟨ks, hks⟩
    exact ⟨ka + ks, by simp [hka, hks]⟩

/-! ## Sum helpers -/

lemma snd_pair_sum (l : List (ℚ × ℚ)) :
    (l.map Prod.snd).sum = l.sum.2 := by
  induction l with
  | nil => simp
  | cons a xs ih => simp [ih, Prod.snd_add]

lemma sum_ite_winning (ws : List UserWager) (win : ℤ) :
    (ws.map (fun w => if w.optionId = win then w.amount else 0)).sum =
      winningPoolOf ws win := by
  induction ws with
  | nil => simp [winningPoolOf]
  | cons w ws ih =>
    by_cases h : w.optionId = win
    · rw [winningPoolOf, List.filter_cons_of_pos (by simpa using h)]
      simp only [List.map_cons, List.sum_cons, if_pos h]
      rw [ih, winningPoolOf]
    · rw [winningPoolOf, List.filter_cons_of_neg (by simpa using h)]
      simp only [List.map_cons, List.sum_cons, if_neg h]
      rw [ih, winningPoolOf]
      simp

/-- A filtered sum of nonnegative rationals is at most the full sum. -/
lemma sum_map_filter_le (p : α → Bool) (f : α → ℚ) (l : List α)
    (h : ∀ x ∈ l, 0 ≤ f x) :
    ((l.filter p).map f).sum ≤ (l.map f).sum := by
  induction l with
  | nil => simp
  | cons a xs ih =>
    have ha := h a (List.mem_cons_self a xs)
    have ihs := ih (fun x hx => h x (List.mem_cons_of_mem a hx))
    by_cases hp : p a
    · rw [List.filter_cons_of_pos hp]
      simp only [List.map_cons, List.sum_cons]
      linarith
    · rw [List.filter_cons_of_neg (by simpa using hp)]
      simp only [List.map_cons, List.sum_cons]
      linarith

lemma sum_map_nonneg (f : α → ℚ) (l : List α) (h : ∀ x ∈ l, 0 ≤ f x) :
    0 ≤ (l.map f).sum := by
  induction l with
  | nil => simp
  | cons a xs ih =>
    have ha := h a (List.mem_cons_self a xs)
    have ihs := ih (fun x hx => h x (List.mem_cons_of_mem a hx))
    simp only [List.map_cons, List.sum_cons]
    linarith


/-! ## Branch equations of calculatePayouts -/

lemma length_ne_zero_of_winningPool {ws : List UserWager} {win : ℤ}
    (h : winningPoolOf ws win ≠ 0) : ¬ ws.length = 0 := by
  intro h0
  rcases List.length_eq_zero.mp h0 with rfl
  exact h rfl

lemma calculatePayouts_zero {ws : List UserWager} {win : ℤ}
    (hne : ¬ ws.length = 0) (h0 : winningPoolOf ws win = 0) :
    calculatePayouts ws win =
      sortByKeyDesc (·.netWinLoss)
        ((groupLoss ws).map (fun e => ⟨e.1, e.2, 0, -e.2⟩)) := by
  rw [calculatePayouts, if_neg hne]
  simp [h0]

lemma calculatePayouts_pos {ws : List UserWager} {win : ℤ}
    (h : winningPoolOf ws win ≠ 0) :
    calculatePayouts ws win =
      sortByKeyDesc (·.netWinLoss)
        ((groupWin win ws).map
          (fun e =>
            ⟨e.1, e.2.1,
             round2 ((e.2.2 / winningPoolOf ws win) * totalPoolOf ws),
             round2 ((e.2.2 / winningPoolOf ws win) * totalPoolOf ws -
               e.2.1)⟩)) := by
  rw [calculatePayouts, if_neg (length_ne_zero_of_winningPool h)]
  simp [h]

/-! ## Pool conservation -/

lemma fst_pair_sum (l : List (ℚ × ℚ)) :
    (l.map Prod.fst).sum = l.sum.1 := by
  induction l with
  | nil => simp
  | cons a xs ih => simp [ih, Prod.fst_add]

lemma sum_onWinning_groupWin (ws : List UserWager) (win : ℤ) :
    ((groupWin win ws).map (fun e => e.2.2)).sum = winningPoolOf ws win := by
  have h1 := @sum_vals_groupBy UserWager (ℚ × ℚ) _
      (fun w => w.userName)
      (fun w => (w.amount, if w.optionId = win then w.amount else 0)) ws
  have h2 : ((groupWin win ws).map (fun e => e.2.2)).sum =
      ((groupWin win ws).map Prod.snd).sum.2 := by
    rw [← snd_pair_sum, List.map_map]
    rfl
  rw [h2, groupWin, h1, ← snd_pair_sum, List.map_map]
  exact sum_ite_winning ws win

lemma sum_totals_groupWin (ws : List UserWager) (win : ℤ) :
    ((groupWin win ws).map (fun e => e.2.1)).sum = totalPoolOf ws := by
  have h1 := @sum_vals_groupBy UserWager (ℚ × ℚ) _
      (fun w => w.userName)
      (fun w => (w.amount, if w.optionId = win then w.amount else 0)) ws
  have h2 : ((groupWin win ws).map (fun e => e.2.1)).sum =
      ((groupWin win ws).map Prod.snd).sum.1 := by
    rw [← fst_pair_sum, List.map_map]
    rfl
  rw [h2, groupWin, h1, ← fst_pair_sum, List.map_map]
  rfl

lemma sum_totals_groupLoss (ws : List UserWager) :
    ((groupLoss ws).map Prod.snd).sum = totalPoolOf ws := by
  rw [groupLoss, sum_vals_groupBy]
  rfl

/-- Before rounding, the proportional payouts distribute exactly the
total pool. -/
lemma sum_payoutRaw (ws : List UserWager) (win : ℤ)
    (h : winningPoolOf ws win ≠ 0) :
    ((groupWin win ws).map
      (fun e => (e.2.2 / winningPoolOf ws win) * totalPoolOf ws)).sum =
      totalPoolOf ws := by
  have hfun : (fun e : String × ℚ × ℚ =>
      (e.2.2 / winningPoolOf ws win) * totalPoolOf ws) =
      (fun e : String × ℚ × ℚ =>
        e.2.2 * (totalPoolOf ws / winningPoolOf ws win)) := by
    funext e
    ring
  rw [hfun, List.sum_map_mul_right, sum_onWinning_groupWin, mul_comm,
    div_mul_cancel₀ _ h]

/-! ## Claim theorems -/

/-- C2: the reference scenario. Wagers Alice 10 on option 1, Alice 5 on
option 2, Bob 20 on option 1, Carol 15 on option 2; option 1 wins.
Output, winners first: Bob with payout 33.33 and net 13.33, Alice with
total 15, payout 16.67 and net 1.67, Carol with payout 0 and net -15. -/
theorem C2_concrete_scenario :
    calculatePayouts
      [⟨"Alice", 1, 10⟩, ⟨"Alice", 2, 5⟩, ⟨"Bob", 1, 20⟩, ⟨"Carol", 2, 15⟩]
      1 =
    [⟨"Bob", 20, 3333/100, 1333/100⟩,
     ⟨"Alice", 15, 1667/100, 167/100⟩,
     ⟨"Carol", 15, 0, -15⟩] := by
  norm_num +decide [calculatePayouts, totalPoolOf, winningPoolOf, groupBy,
    groupLoss, groupWin, bumpAdd, sortByKeyDesc, insertByKey, round2]

/-- C1 (amended): with a positive winning pool the rounded payouts sum
to the total pool within half a cent per output row, the tightest bound
rounding each payout to two decimals allows; a fixed 0.01 tolerance is
refuted by the counterexample below. -/
theorem C1_money_conservation (ws : List UserWager) (win : ℤ)
    (h : 0 < winningPoolOf ws win) :
    |((calculatePayouts ws win).map (·.payout)).sum - totalPoolOf ws| ≤
      ((calculatePayouts ws win).length : ℚ) * (1/200) := by
  have hne := h.ne'
  rw [calculatePayouts_pos hne]
  have hperm := perm_sortByKeyDesc (·.netWinLoss)
    ((groupWin win ws).map
      (fun e =>
        (⟨e.1, e.2.1,
          round2 ((e.2.2 / winningPoolOf ws win) * totalPoolOf ws),
          round2 ((e.2.2 / winningPoolOf ws win) * totalPoolOf ws -
            e.2.1)⟩ : PayoutResult)))
  rw [(hperm.map (·.payout)).sum_eq, hperm.length_eq, List.map_map,
    List.length_map]
  have hmm : ((groupWin win ws).map
      ((fun r : PayoutResult => r.payout) ∘
        (fun e : String × ℚ × ℚ =>
          (⟨e.1, e.2.1,
            round2 ((e.2.2 / winningPoolOf ws win) * totalPoolOf ws),
            round2 ((e.2.2 / winningPoolOf ws win) * totalPoolOf ws -
              e.2.1)⟩ : PayoutResult)))) =
      ((groupWin win ws).map
        (fun e => (e.2.2 / winningPoolOf ws win) * totalPoolOf ws)).map
          round2 := by
    rw [List.map_map]
    rfl
  rw [hmm]
  have hbound := abs_sum_round2_sub_le
    ((groupWin win ws).map
      (fun e => (e.2.2 / winningPoolOf ws win) * totalPoolOf ws))
  rw [sum_payoutRaw ws win hne, List.length_map] at hbound
  exact hbound

/-- Witness for C1 at a concrete input with a positive winning pool. -/
theorem C1_money_conservation_witness :
    |((calculatePayouts [⟨"Alice", 1, 10⟩] 1).map (·.payout)).sum -
        totalPoolOf [⟨"Alice", 1, 10⟩]| ≤
      ((calculatePayouts [⟨"Alice", 1, 10⟩] 1).length : ℚ) * (1/200) :=
  C1_money_conservation [⟨"Alice", 1, 10⟩] 1
    (by norm_num +decide [winningPoolOf])

/-- Four winners whose exact payouts all end in half a cent: each rounds
up by 0.005, so the payout sum drifts 0.02 above the pool. -/
def cexWagers : List UserWager :=
  [⟨"Ann", 1, 49⟩, ⟨"Ben", 1, 49⟩, ⟨"Cal", 1, 51⟩, ⟨"Dee", 1, 51⟩,
   ⟨"Eve", 2, 1⟩]

/-- C1 counterexample: on cexWagers with option 1 winning, the winning
pool is positive yet the payout sum misses the total pool by 0.02,
violating the claimed 0.01 tolerance. -/
theorem C1_counterexample :
    0 < winningPoolOf cexWagers 1 ∧
    ¬ |((calculatePayouts cexWagers 1).map (·.payout)).sum -
        totalPoolOf cexWagers| ≤ 1/100 := by
  have h1 : ((calculatePayouts cexWagers 1).map (·.payout)).sum =
      10051/50 := by
    norm_num +decide [calculatePayouts, totalPoolOf, winningPoolOf,
      groupBy, groupLoss, groupWin, bumpAdd, sortByKeyDesc, insertByKey,
      round2, cexWagers]
  have h2 : totalPoolOf cexWagers = 201 := by
    norm_num [totalPoolOf, cexWagers]
  constructor
  · norm_num +decide [winningPoolOf, cexWagers]
  · rw [h1, h2]
    rw [show (10051 : ℚ)/50 - 201 = 1/50 by norm_num]
    rw [abs_of_nonneg (by norm_num)]
    norm_num

/-- C5: the output of calculatePayouts is non-increasing in netWinLoss
in every branch. -/
theorem C5_sorted (ws : List UserWager) (win : ℤ) :
    (calculatePayouts ws win).Pairwise
      (fun a b => b.netWinLoss ≤ a.netWinLoss) := by
  by_cases h0 : ws.length = 0
  · rcases List.length_eq_zero.mp h0 with rfl
    simp [calculatePayouts]
  · by_cases hw : winningPoolOf ws win = 0
    · rw [calculatePayouts_zero h0 hw]
      exact pairwise_sortByKeyDesc _ _
    · rw [calculatePayouts_pos hw]
      exact pairwise_sortByKeyDesc _ _

/-! ## Grouping facts specialised to the two branches -/

lemma nodup_keys_groupLoss (ws : List UserWager) :
    ((groupLoss ws).map Prod.fst).Nodup := by
  rw [groupLoss]
  exact nodup_keys_groupBy _ _ _

lemma mem_keys_groupLoss (n : String) (ws : List UserWager) :
    n ∈ (groupLoss ws).map Prod.fst ↔ n ∈ ws.map (·.userName) := by
  rw [groupLoss]
  exact mem_keys_groupBy _ _ _ _

lemma val_of_mem_groupLoss {ws : List UserWager} {e : String × ℚ}
    (he : e ∈ groupLoss ws) :
    e.2 = ((ws.filter (fun w => w.userName = e.1)).map (·.amount)).sum := by
  rw [groupLoss] at he
  exact val_of_mem_groupBy _ _ he

lemma nodup_keys_groupWin (win : ℤ) (ws : List UserWager) :
    ((groupWin win ws).map Prod.fst).Nodup := by
  rw [groupWin]
  exact nodup_keys_groupBy _ _ _

lemma mem_keys_groupWin (n : String) (win : ℤ) (ws : List UserWager) :
    n ∈ (groupWin win ws).map Prod.fst ↔ n ∈ ws.map (·.userName) := by
  rw [groupWin]
  exact mem_keys_groupBy _ _ _ _

lemma val_of_mem_groupWin {win : ℤ} {ws : List UserWager}
    {e : String × ℚ × ℚ} (he : e ∈ groupWin win ws) :
    e.2.1 =
      ((ws.filter (fun w => w.userName = e.1)).map (·.amount)).sum ∧
    e.2.2 =
      ((ws.filter (fun w => w.userName = e.1)).map
        (fun w => if w.optionId = win then w.amount else 0)).sum := by
  rw [groupWin] at he
  have h := val_of_mem_groupBy (fun w : UserWager => w.userName)
    (fun w : UserWager =>
      (w.amount, if w.optionId = win then w.amount else 0)) he
  constructor
  · have h1 := congrArg Prod.fst h
    rw [← fst_pair_sum, List.map_map] at h1
    exact h1
  · have h2 := congrArg Prod.snd h
    rw [← snd_pair_sum, List.map_map] at h2
    exact h2

/-! ## Membership in the output of calculatePayouts -/

lemma mem_calculatePayouts_zero {ws : List UserWager} {win : ℤ}
    {r : PayoutResult} (hlen : ¬ ws.length = 0)
    (h0 : winningPoolOf ws win = 0) (hr : r ∈ calculatePayouts ws win) :
    ∃ e ∈ groupLoss ws, r = ⟨e.1, e.2, 0, -e.2⟩ := by
  rw [calculatePayouts_zero hlen h0] at hr
  have h := (perm_sortByKeyDesc _ _).mem_iff.mp hr
  rcases List.mem_map.mp h with ⟨e, he, rfl⟩
  exact ⟨e, he, rfl⟩

lemma mem_calculatePayouts_pos {ws : List UserWager} {win : ℤ}
    {r : PayoutResult} (h : winningPoolOf ws win ≠ 0)
    (hr : r ∈ calculatePayouts ws win) :
    ∃ e ∈ groupWin win ws,
      r = ⟨e.1, e.2.1,
           round2 ((e.2.2 / winningPoolOf ws win) * totalPoolOf ws),
           round2 ((e.2.2 / winningPoolOf ws win) * totalPoolOf ws -
             e.2.1)⟩ := by
  rw [calculatePayouts_pos h] at hr
  have hm := (perm_sortByKeyDesc _ _).mem_iff.mp hr
  rcases List.mem_map.mp hm with ⟨e, he, rfl⟩
  exact ⟨e, he, rfl⟩

/-- When every wager sits on the winning option the two pools agree. -/
lemma winningPool_eq_totalPool {ws : List UserWager} {win : ℤ}
    (hall : ∀ w ∈ ws, w.optionId = win) :
    winningPoolOf ws win = totalPoolOf ws := by
  rw [winningPoolOf, totalPoolOf,
    List.filter_eq_self.mpr (fun w hw => by simpa using hall w hw)]

/-- C3: when nobody wagered on the winning option, calculatePayouts
returns one row per distinct user, the row total being the sum of that
user wagers, with payout 0 and net equal to minus the total. -/
theorem C3_total_loss (ws : List UserWager) (win : ℤ)
    (hne : ws ≠ []) (h0 : winningPoolOf ws win = 0) :
    ((calculatePayouts ws win).map (·.userName)).Nodup ∧
    (∀ n : String, n ∈ (calculatePayouts ws win).map (·.userName) ↔
      n ∈ ws.map (·.userName)) ∧
    (∀ r ∈ calculatePayouts ws win,
      r.totalWagered =
        ((ws.filter (fun w => w.userName = r.userName)).map
          (·.amount)).sum ∧
      r.payout = 0 ∧ r.netWinLoss = -r.totalWagered) := by
  have hlen : ¬ ws.length = 0 := by simpa using hne
  have hperm : List.Perm (calculatePayouts ws win)
      ((groupLoss ws).map
        (fun e => (⟨e.1, e.2, 0, -e.2⟩ : PayoutResult))) := by
    rw [calculatePayouts_zero hlen h0]
    exact perm_sortByKeyDesc _ _
  have hnames : (((groupLoss ws).map
      (fun e => (⟨e.1, e.2, 0, -e.2⟩ : PayoutResult))).map (·.userName)) =
      (groupLoss ws).map Prod.fst := by
    rw [List.map_map]
    rfl
  refine ⟨?_, ?_, ?_⟩
  · refine ((hperm.map (·.userName)).nodup_iff).mpr ?_
    rw [hnames]
    exact nodup_keys_groupLoss ws
  · intro n
    rw [(hperm.map (·.userName)).mem_iff, hnames, mem_keys_groupLoss]
  · intro r hr
    rcases mem_calculatePayouts_zero hlen h0 hr with ⟨e, he, rfl⟩
    exact ⟨val_of_mem_groupLoss he, rfl, rfl⟩

/-- Witness for C3 at a concrete single-wager input whose option lost. -/
theorem C3_total_loss_witness :
    (((calculatePayouts [⟨"Alice", 1, 10⟩] 2).map (·.userName)).Nodup ∧
    (∀ n : String,
      n ∈ (calculatePayouts [⟨"Alice", 1, 10⟩] 2).map (·.userName) ↔
      n ∈ ([⟨"Alice", 1, 10⟩] : List UserWager).map (·.userName)) ∧
    (∀ r ∈ calculatePayouts [⟨"Alice", 1, 10⟩] 2,
      r.totalWagered =
        ((([⟨"Alice", 1, 10⟩] : List UserWager).filter
          (fun w => w.userName = r.userName)).map (·.amount)).sum ∧
      r.payout = 0 ∧ r.netWinLoss = -r.totalWagered)) :=
  C3_total_loss [⟨"Alice", 1, 10⟩] 2 (by simp)
    (by norm_num +decide [winningPoolOf])

/-- C4: when every wager sits on the winning option (with nonnegative
whole-unit amounts, as validated upstream), every user breaks even:
net 0 and payout equal to the total wagered. -/
theorem C4_all_on_winner (ws : List UserWager) (win : ℤ)
    (hall : ∀ w ∈ ws, w.optionId = win)
    (hamt : ∀ w ∈ ws, 0 ≤ w.amount ∧ ∃ k : ℤ, w.amount = (k : ℚ)) :
    ∀ r ∈ calculatePayouts ws win,
      r.netWinLoss = 0 ∧ r.payout = r.totalWagered := by
  intro r hr
  by_cases h0 : ws.length = 0
  · rcases List.length_eq_zero.mp h0 with rfl
    simp [calculatePayouts] at hr
  by_cases hw : winningPoolOf ws win = 0
  · rcases mem_calculatePayouts_zero h0 hw hr with ⟨e, he, rfl⟩
    have hT0 : totalPoolOf ws = 0 := by
      rw [← winningPool_eq_totalPool hall]
      exact hw
    have h1 := val_of_mem_groupLoss he
    have hle : ((ws.filter (fun w => w.userName = e.1)).map
        (·.amount)).sum ≤ (ws.map (·.amount)).sum :=
      sum_map_filter_le _ _ _ (fun w hw2 => (hamt w hw2).1)
    have hge : 0 ≤ ((ws.filter (fun w => w.userName = e.1)).map
        (·.amount)).sum :=
      sum_map_nonneg _ _
        (fun w hw2 => (hamt w (List.mem_of_mem_filter hw2)).1)
    have hTsum : (ws.map (·.amount)).sum = 0 := hT0
    have he2 : e.2 = 0 := by
      rw [h1]
      linarith
    constructor
    · show -e.2 = 0
      rw [he2, neg_zero]
    · show (0 : ℚ) = e.2
      rw [he2]
  · rcases mem_calculatePayouts_pos hw hr with ⟨e, he, rfl⟩
    rcases val_of_mem_groupWin he with ⟨h1, h2⟩
    have h22 : e.2.2 = e.2.1 := by
      rw [h1, h2]
      congr 1
      apply List.map_congr_left
      intro w hw2
      rw [if_pos (hall w (List.mem_of_mem_filter hw2))]
    have hraw : (e.2.2 / winningPoolOf ws win) * totalPoolOf ws =
        e.2.1 := by
      rw [h22, winningPool_eq_totalPool hall] at *
      exact div_mul_cancel₀ e.2.1 hw
    have hint : ∃ k : ℤ, e.2.1 = (k : ℚ) := by
      rw [h1]
      apply sum_int_of_int
      intro x hx
      rcases List.mem_map.mp hx with ⟨w, hw2, rfl⟩
      exact (hamt w (List.mem_of_mem_filter hw2)).2
    constructor
    · show round2 ((e.2.2 / winningPoolOf ws win) * totalPoolOf ws -
        e.2.1) = 0
      rw [hraw, sub_self, round2_zero]
    · show round2 ((e.2.2 / winningPoolOf ws win) * totalPoolOf ws) =
        e.2.1
      rw [hraw]
      exact round2_of_int hint

/-- Witness for C4 with two users all on the winning option, applied to
the first output row. -/
theorem C4_all_on_winner_witness :
    (⟨"Alice", 10, 10, 0⟩ : PayoutResult).netWinLoss = 0 ∧
    (⟨"Alice", 10, 10, 0⟩ : PayoutResult).payout =
      (⟨"Alice", 10, 10, 0⟩ : PayoutResult).totalWagered :=
  C4_all_on_winner [⟨"Alice", 1, 10⟩, ⟨"Bob", 1, 20⟩] 1
    (by intro w hw; rcases List.mem_cons.mp hw with rfl | hw2
        · rfl
        · rcases List.mem_cons.mp hw2 with rfl | hw3
          · rfl
          · simp at hw3)
    (by intro w hw; rcases List.mem_cons.mp hw with rfl | hw2
        · exact ⟨by norm_num, ⟨10, by norm_num⟩⟩
        · rcases List.mem_cons.mp hw2 with rfl | hw3
          · exact ⟨by norm_num, ⟨20, by norm_num⟩⟩
          · simp at hw3)
    ⟨"Alice", 10, 10, 0⟩
    (by norm_num +decide [calculatePayouts, totalPoolOf, winningPoolOf,
      groupBy, groupLoss, groupWin, bumpAdd, sortByKeyDesc, insertByKey,
      round2])

/-- C6: with positive whole-unit wager amounts, every output row
satisfies netWinLoss = payout - totalWagered despite the two fields
being rounded separately. -/
theorem C6_net_invariant (ws : List UserWager) (win : ℤ)
    (hamt : ∀ w ∈ ws, 0 < w.amount ∧ ∃ k : ℤ, w.amount = (k : ℚ)) :
    ∀ r ∈ calculatePayouts ws win,
      r.netWinLoss = r.payout - r.totalWagered := by
  intro r hr
  by_cases h0 : ws.length = 0
  · rcases List.length_eq_zero.mp h0 with rfl
    simp [calculatePayouts] at hr
  by_cases hw : winningPoolOf ws win = 0
  · rcases mem_calculatePayouts_zero h0 hw hr with ⟨e, he, rfl⟩
    show -e.2 = 0 - e.2
    rw [zero_sub]
  · rcases mem_calculatePayouts_pos hw hr with ⟨e, he, rfl⟩
    rcases val_of_mem_groupWin he with ⟨h1, _⟩
    have hint : ∃ k : ℤ, e.2.1 = (k : ℚ) := by
      rw [h1]
      apply sum_int_of_int
      intro x hx
      rcases List.mem_map.mp hx with ⟨w, hw2, rfl⟩
      exact (hamt w (List.mem_of_mem_filter hw2)).2
    rcases hint with ⟨k, hk⟩
    show round2 ((e.2.2 / winningPoolOf ws win) * totalPoolOf ws -
        e.2.1) =
      round2 ((e.2.2 / winningPoolOf ws win) * totalPoolOf ws) - e.2.1
    rw [hk, round2_sub_int]

/-- Witness for C6 on the Bob row of the reference scenario: 13.33 is
33.33 minus 20. -/
theorem C6_net_invariant_witness :
    (⟨"Bob", 20, 3333/100, 1333/100⟩ : PayoutResult).netWinLoss =
      (⟨"Bob", 20, 3333/100, 1333/100⟩ : PayoutResult).payout -
      (⟨"Bob", 20, 3333/100, 1333/100⟩ : PayoutResult).totalWagered :=
  C6_net_invariant
    [⟨"Alice", 1, 10⟩, ⟨"Alice", 2, 5⟩, ⟨"Bob", 1, 20⟩, ⟨"Carol", 2, 15⟩]
    1
    (by intro w hw
        rcases List.mem_cons.mp hw with rfl | hw2
        · exact ⟨by norm_num, ⟨10, by norm_num⟩⟩
        rcases List.mem_cons.mp hw2 with rfl | hw3
        · exact ⟨by norm_num, ⟨5, by norm_num⟩⟩
        rcases List.mem_cons.mp hw3 with rfl | hw4
        · exact ⟨by norm_num, ⟨20, by norm_num⟩⟩
        rcases List.mem_cons.mp hw4 with rfl | hw5
        · exact ⟨by norm_num, ⟨15, by norm_num⟩⟩
        · simp at hw5)
    ⟨"Bob", 20, 3333/100, 1333/100⟩
    (by norm_num +decide [calculatePayouts, totalPoolOf, winningPoolOf,
      groupBy, groupLoss, groupWin, bumpAdd, sortByKeyDesc, insertByKey,
      round2])

/-! ## Lifecycle lemmas -/

lemma status_closed_of_ne {s : BetStatus} (h1 : ¬ s = BetStatus.settled)
    (h2 : ¬ s = BetStatus.open_) : s = BetStatus.closed := by
  cases s <;> simp_all

lemma closeBet_ok_inv {bet st : BetRec} {req : AuthReq}
    {env : Option String} (h : closeBet bet req env = Except.ok st) :
    bet.status = BetStatus.open_ ∧
    st = { bet with status := BetStatus.closed } := by
  rw [closeBet] at h
  split at h
  · cases h
  · next h1 =>
    split at h
    · exact ⟨not_not.mp h1, (Except.ok.inj h).symm⟩
    · cases h

lemma settleBet_ok_inv {bet st : BetRec} {req : SettleReq}
    {env : Option String} (h : settleBet bet req env = Except.ok st) :
    bet.status = BetStatus.closed ∧
    st = { bet with status := BetStatus.settled,
                    winningOptionId := some req.winningOptionId } := by
  rw [settleBet] at h
  split at h
  · cases h
  · next h1 =>
    split at h
    · cases h
    · next h2 =>
      split at h
      · split at h
        · exact ⟨status_closed_of_ne h1 h2, (Except.ok.inj h).symm⟩
        · cases h
      · cases h

lemma closeBet_not_open {bet : BetRec} {req : AuthReq}
    {env : Option String} (h : bet.status ≠ BetStatus.open_) :
    closeBet bet req env =
      Except.error (ApiError.stateError "Cannot close bet") := by
  rw [closeBet, if_pos h]

lemma settleBet_not_closed {bet : BetRec} {req : SettleReq}
    {env : Option String} (h : bet.status ≠ BetStatus.closed) :
    ∃ m, settleBet bet req env =
      Except.error (ApiError.stateError m) := by
  rw [settleBet]
  cases hb : bet.status with
  | open_ =>
    refine ⟨"Bet must be closed before settling", ?_⟩
    rw [if_neg (by simp), if_pos rfl]
  | closed => exact absurd hb h
  | settled => exact ⟨"Bet is already settled", by rw [if_pos rfl]⟩

lemma applyAction_close_error {env : Option String} {bet : BetRec}
    {req : AuthReq} {e : ApiError}
    (h : closeBet bet req env = Except.error e) :
    applyAction env bet (BetAction.close req) = bet := by
  simp [applyAction, h]

lemma applyAction_settle_error {env : Option String} {bet : BetRec}
    {req : SettleReq} {e : ApiError}
    (h : settleBet bet req env = Except.error e) :
    applyAction env bet (BetAction.settle req) = bet := by
  simp [applyAction, h]

lemma statusRank_le_applyAction (env : Option String) (bet : BetRec)
    (a : BetAction) :
    statusRank bet.status ≤ statusRank ((applyAction env bet a).status) := by
  cases a with
  | close req =>
    cases h : closeBet bet req env with
    | ok st =>
      rcases closeBet_ok_inv h with ⟨h1, rfl⟩
      simp [applyAction, h, h1, statusRank]
    | error e => simp [applyAction, h]
  | settle req =>
    cases h : settleBet bet req env with
    | ok st =>
      rcases settleBet_ok_inv h with ⟨h1, rfl⟩
      simp [applyAction, h, h1, statusRank]
    | error e => simp [applyAction, h]

lemma applyAction_rank_le_succ (env : Option String) (bet : BetRec)
    (a : BetAction) :
    statusRank ((applyAction env bet a).status) ≤
      statusRank bet.status + 1 := by
  cases a with
  | close req =>
    cases h : closeBet bet req env with
    | ok st =>
      rcases closeBet_ok_inv h with ⟨h1, rfl⟩
      simp [applyAction, h, h1, statusRank]
    | error e =>
      simp [applyAction, h]
  | settle req =>
    cases h : settleBet bet req env with
    | ok st =>
      rcases settleBet_ok_inv h with ⟨h1, rfl⟩
      simp [applyAction, h, h1, statusRank]
    | error e =>
      simp [applyAction, h]

lemma statusRank_le_runActions (env : Option String)
    (acts : List BetAction) :
    ∀ bet : BetRec,
      statusRank bet.status ≤
        statusRank ((runActions env bet acts).status) := by
  induction acts with
  | nil => intro bet; simp [runActions]
  | cons a acts ih =>
    intro bet
    rw [runActions, List.foldl_cons]
    exact le_trans (statusRank_le_applyAction env bet a)
      (ih (applyAction env bet a))

/-- C7: lifecycle monotonicity. A successful close starts at open and
lands at closed, a successful settle starts at closed and lands at
settled; from any other status the handler answers a state error and
leaves the bet unchanged (so a settled bet rejects everything), and no
sequence of actions ever lowers, or skips a step of, the status rank. -/
theorem C7_lifecycle (env : Option String) (st : BetRec) (creq : AuthReq)
    (sreq : SettleReq) (acts : List BetAction) (a : BetAction) :
    (∀ st2, closeBet st creq env = Except.ok st2 →
      st.status = BetStatus.open_ ∧ st2.status = BetStatus.closed) ∧
    (∀ st2, settleBet st sreq env = Except.ok st2 →
      st.status = BetStatus.closed ∧ st2.status = BetStatus.settled) ∧
    (st.status ≠ BetStatus.open_ →
      ∃ m, closeBet st creq env = Except.error (ApiError.stateError m) ∧
        applyAction env st (BetAction.close creq) = st) ∧
    (st.status ≠ BetStatus.closed →
      ∃ m, settleBet st sreq env = Except.error (ApiError.stateError m) ∧
        applyAction env st (BetAction.settle sreq) = st) ∧
    statusRank st.status ≤ statusRank ((runActions env st acts).status) ∧
    statusRank ((applyAction env st a).status) ≤
      statusRank st.status + 1 := by
  refine ⟨?_, ?_, ?_, ?_, ?_, ?_⟩
  · intro st2 h
    rcases closeBet_ok_inv h with ⟨h1, rfl⟩
    exact ⟨h1, rfl⟩
  · intro st2 h
    rcases settleBet_ok_inv h with ⟨h1, rfl⟩
    exact ⟨h1, rfl⟩
  · intro h
    exact ⟨"Cannot close bet", closeBet_not_open h,
      applyAction_close_error (closeBet_not_open h)⟩
  · intro h
    rcases @settleBet_not_closed st sreq env h with ⟨m, hm⟩
    exact ⟨m, hm, applyAction_settle_error hm⟩
  · exact statusRank_le_runActions env acts st
  · exact applyAction_rank_le_succ env st a

/-- A settled bet fixture. -/
def settledBet : BetRec := ⟨BetStatus.settled, "Alice", [1, 2], some 1⟩

/-- Witness for C7: a settled bet rejects both close and settle with a
state error and stays unchanged. -/
theorem C7_lifecycle_witness :
    (∃ m, closeBet settledBet ⟨none, none⟩ none =
        Except.error (ApiError.stateError m) ∧
      applyAction none settledBet (BetAction.close ⟨none, none⟩) =
        settledBet) ∧
    (∃ m, settleBet settledBet ⟨1, none, none⟩ none =
        Except.error (ApiError.stateError m) ∧
      applyAction none settledBet (BetAction.settle ⟨1, none, none⟩) =
        settledBet) :=
  ⟨(C7_lifecycle none settledBet ⟨none, none⟩ ⟨1, none, none⟩ []
      (BetAction.close ⟨none, none⟩)).2.2.1 (by decide),
   (C7_lifecycle none settledBet ⟨none, none⟩ ⟨1, none, none⟩ []
      (BetAction.settle ⟨1, none, none⟩)).2.2.2.1 (by decide)⟩

/-- C8: on a bet in the correct state, the transition happens exactly
when the caller is host (PIN match) or creator (identity-string match);
otherwise the handler answers the authorization error, which differs
from every state error, and the bet is unchanged. -/
theorem C8_authorization (env : Option String) (st : BetRec)
    (creq : AuthReq) (sreq : SettleReq) :
    (st.status = BetStatus.open_ →
      (isHost creq.hostPin env ||
        isCreator creq.createdBy st.createdBy) = false →
      closeBet st creq env = Except.error ApiError.authError ∧
      applyAction env st (BetAction.close creq) = st) ∧
    (st.status = BetStatus.open_ →
      (isHost creq.hostPin env ||
        isCreator creq.createdBy st.createdBy) = true →
      closeBet st creq env =
        Except.ok { st with status := BetStatus.closed }) ∧
    (st.status = BetStatus.closed → sreq.winningOptionId ∈ st.options →
      (isHost sreq.hostPin env ||
        isCreator sreq.createdBy st.createdBy) = false →
      settleBet st sreq env = Except.error ApiError.authError ∧
      applyAction env st (BetAction.settle sreq) = st) ∧
    (st.status = BetStatus.closed → sreq.winningOptionId ∈ st.options →
      (isHost sreq.hostPin env ||
        isCreator sreq.createdBy st.createdBy) = true →
      settleBet st sreq env =
        Except.ok { st with status := BetStatus.settled,
                            winningOptionId := some sreq.winningOptionId }) ∧
    (∀ m, ApiError.authError ≠ ApiError.stateError m) := by
  refine ⟨?_, ?_, ?_, ?_, ?_⟩
  · intro h1 h2
    have hc : closeBet st creq env = Except.error ApiError.authError := by
      rw [closeBet, if_neg (by rw [h1]; simp), if_neg (by rw [h2]; simp)]
    exact ⟨hc, applyAction_close_error hc⟩
  · intro h1 h2
    rw [closeBet, if_neg (by rw [h1]; simp), if_pos h2]
  · intro h1 hm h2
    have hs : settleBet st sreq env = Except.error ApiError.authError := by
      rw [settleBet, if_neg (by rw [h1]; simp),
        if_neg (by rw [h1]; simp), if_pos hm, if_neg (by rw [h2]; simp)]
    exact ⟨hs, applyAction_settle_error hs⟩
  · intro h1 hm h2
    rw [settleBet, if_neg (by rw [h1]; simp), if_neg (by rw [h1]; simp),
      if_pos hm, if_pos h2]
  · intro m h
    cases h

/-- An open bet fixture. -/
def openBet : BetRec := ⟨BetStatus.open_, "Alice", [1, 2], none⟩

/-- Witness for C8: on an open bet a caller with a wrong PIN and a wrong
creator string is turned away unchanged, while the true creator may
close. -/
theorem C8_authorization_witness :
    (closeBet openBet ⟨some "0000", some "Bob"⟩ (some "1234") =
        Except.error ApiError.authError ∧
      applyAction (some "1234") openBet
        (BetAction.close ⟨some "0000", some "Bob"⟩) = openBet) ∧
    closeBet openBet ⟨none, some "Alice"⟩ (some "1234") =
      Except.ok { openBet with status := BetStatus.closed } :=
  ⟨(C8_authorization (some "1234") openBet ⟨some "0000", some "Bob"⟩
      ⟨1, none, none⟩).1 rfl (by decide),
   (C8_authorization (some "1234") openBet ⟨none, some "Alice"⟩
      ⟨1, none, none⟩).2.1 rfl (by decide)⟩

/-- C10: on a closed bet, a winning option id that does not belong to
the bet is rejected as invalid before the authorization check runs, for
every caller identity. -/
theorem C10_option_before_auth (st : BetRec) (sreq : SettleReq)
    (env : Option String) (h1 : st.status = BetStatus.closed)
    (h2 : sreq.winningOptionId ∉ st.options) :
    settleBet st sreq env = Except.error ApiError.invalidOption := by
  rw [settleBet, if_neg (by rw [h1]; simp), if_neg (by rw [h1]; simp),
    if_neg h2]

/-- A closed bet fixture. -/
def closedBet : BetRec := ⟨BetStatus.closed, "Alice", [1, 2], none⟩

/-- Witness for C10: an unauthorized caller naming a foreign option id
receives the invalid-option error, not the authorization error. -/
theorem C10_option_before_auth_witness :
    settleBet closedBet ⟨3, some "9999", some "Mallory"⟩ (some "1234") =
      Except.error ApiError.invalidOption :=
  C10_option_before_auth closedBet ⟨3, some "9999", some "Mallory"⟩
    (some "1234") rfl (by decide)

/-! ## Settlement summary -/

lemma settlementSummary_pos {betIds : List ℤ}
    (ss : List SettlementRec) (ws : List WagerRec)
    (hb : ¬ betIds.length = 0) :
    settlementSummary betIds ss ws =
      (sortByKeyDesc (·.netAmount)
        ((groupBy (·.userName) (·.netWinLoss)
          (ss.filter (fun s => s.betId ∈ betIds))).map
            (fun e => ⟨e.1, e.2⟩)),
       ((ws.filter (fun w => w.betId ∈ betIds)).map (·.amount)).sum) := by
  rw [settlementSummary, if_neg hb]

/-- C9: the settlement summary lists exactly the users having at least
one settlement row in scope, once each, with netAmount the sum of their
scoped netWinLoss values, sorted winners first; totalPot sums every
scoped wager amount independently of settlement status. -/
theorem C9_settlement_summary (betIds : List ℤ)
    (ss : List SettlementRec) (ws : List WagerRec) :
    (((settlementSummary betIds ss ws).1.map (·.userName)).Nodup) ∧
    (∀ n : String,
      n ∈ (settlementSummary betIds ss ws).1.map (·.userName) ↔
      n ∈ (ss.filter (fun s => s.betId ∈ betIds)).map (·.userName)) ∧
    (∀ u ∈ (settlementSummary betIds ss ws).1,
      u.netAmount =
        (((ss.filter (fun s => s.betId ∈ betIds)).filter
          (fun s => s.userName = u.userName)).map (·.netWinLoss)).sum) ∧
    ((settlementSummary betIds ss ws).1.Pairwise
      (fun a b => b.netAmount ≤ a.netAmount)) ∧
    (settlementSummary betIds ss ws).2 =
      ((ws.filter (fun w => w.betId ∈ betIds)).map (·.amount)).sum := by
  by_cases hb : betIds.length = 0
  · rcases List.length_eq_zero.mp hb with rfl
    rw [settlementSummary]
    simp
  · rw [settlementSummary_pos ss ws hb]
    have hperm := perm_sortByKeyDesc (·.netAmount)
      ((groupBy (·.userName) (·.netWinLoss)
        (ss.filter (fun s => s.betId ∈ betIds))).map
          (fun e => (⟨e.1, e.2⟩ : SummaryEntry)))
    have hnames : (((groupBy (·.userName) (·.netWinLoss)
        (ss.filter (fun s => s.betId ∈ betIds))).map
          (fun e => (⟨e.1, e.2⟩ : SummaryEntry))).map (·.userName)) =
        (groupBy (·.userName) (·.netWinLoss)
          (ss.filter (fun s => s.betId ∈ betIds))).map Prod.fst := by
      rw [List.map_map]
      rfl
    refine ⟨?_, ?_, ?_, ?_, rfl⟩
    · refine ((hperm.map (·.userName)).nodup_iff).mpr ?_
      rw [hnames]
      exact nodup_keys_groupBy _ _ _
    · intro n
      rw [(hperm.map (·.userName)).mem_iff, hnames, mem_keys_groupBy]
    · intro u hu
      have hm := hperm.mem_iff.mp hu
      rcases List.mem_map.mp hm with ⟨e, he, rfl⟩
      exact val_of_mem_groupBy _ _ he
    · exact pairwise_sortByKeyDesc _ _

/-- Witness for C9 on the aggregation scenario: plus 20 in one bet and
minus 40 in another aggregate to minus 20 for the same user. -/
theorem C9_settlement_summary_witness :
    (⟨"Zoe", -20⟩ : SummaryEntry).netAmount =
      (((([⟨1, "Zoe", 20⟩, ⟨2, "Zoe", -40⟩] : List SettlementRec).filter
        (fun s => s.betId ∈ ([1, 2] : List ℤ))).filter
          (fun s => s.userName = (⟨"Zoe", -20⟩ : SummaryEntry).userName)).map
        (·.netWinLoss)).sum :=
  (C9_settlement_summary [1, 2] [⟨1, "Zoe", 20⟩, ⟨2, "Zoe", -40⟩]
      [⟨1, 50⟩, ⟨2, 60⟩]).2.2.1 ⟨"Zoe", -20⟩
    (by norm_num +decide [settlementSummary, groupBy, bumpAdd,
      sortByKeyDesc, insertByKey])

end PlaceABet